import Mathlib

/-!
Shallow embedding of the configuration-parsing core of `video_dl.py`
(repository VideoDL, a video download manager driving yt-dlp).

Python floats are modelled by exact fractions extended with the two
infinities: every string literal the parsers of this program accept
("3", "3.14", " 3,", "inf", ...) denotes a value that is exact in this
model, so no rounding behaviour is lost for the properties stated here.
NaN (an unordered float) is outside the model; none of the properties
below mention it.  Python dicts are modelled as insertion-ordered
association lists with unique keys.  Logging calls are modelled by
explicit warning/event components in the return values, and in-place
mutation of a dict argument is modelled by returning the updated dict.
-/

namespace VideoDL

/-- An exact fraction `num / den`.  All constructors in this file produce
`den > 0`; comparisons are by cross multiplication over `Int`. -/
structure Frac where
  num : Int
  den : Nat
  deriving DecidableEq, Repr

/-- Numeric order on fractions (cross multiplication; dens are positive
at every construction site). -/
def Frac.le (a b : Frac) : Bool :=
  decide (a.num * (b.den : Int) ≤ b.num * (a.den : Int))

/-- The fraction zero, i.e. the Python float `0.0`. -/
def fracZero : Frac := ⟨0, 1⟩

/-- Result of Python `float(string)` in this model: a finite exact value
or one of the two infinities. -/
inductive PyFloat where
  | finite (q : Frac)
  | pinf
  | ninf
  deriving DecidableEq, Repr

/-- Order on modelled floats: `-inf` below everything, `+inf` above
everything, finite values by `Frac.le`. -/
def PyFloat.le : PyFloat → PyFloat → Bool
  | .ninf, _ => true
  | _, .pinf => true
  | .finite a, .finite b => Frac.le a b
  | .pinf, _ => false
  | .finite _, .ninf => false

/-- Decimal digit test (models `str.isdigit` on ASCII as used by float
literals). -/
def isDigitB (c : Char) : Bool := 48 ≤ c.toNat && c.toNat ≤ 57

/-- Value of a decimal digit character. -/
def digitVal (c : Char) : Nat := c.toNat - 48

/-- Accumulate a decimal digit string into a natural number. -/
def digitsToNat (cs : List Char) : Nat :=
  cs.foldl (fun acc c => 10 * acc + digitVal c) 0

/-- Whitespace stripped by Python `float()` around its argument. -/
def isSpaceB (c : Char) : Bool :=
  c = ' ' || c = '\t' || c = '\n' || c = '\r' || c = '\x0b' || c = '\x0c'

/-- Strip leading and trailing whitespace, as Python `float()` does. -/
def stripChars (cs : List Char) : List Char :=
  ((cs.dropWhile isSpaceB).reverse.dropWhile isSpaceB).reverse

/-- Parse an unsigned decimal literal `digits`, `digits.digits`,
`digits.` or `.digits` (at least one digit overall) into an exact
fraction.  This is the decimal fragment of Python's float literal
grammar; exponent forms and underscores are not used by this program's
inputs and are not modelled, so here they fail to parse just like
arbitrary non-numeric text. -/
def parseUnsignedDec (cs : List Char) : Option Frac :=
  let intPart := cs.takeWhile isDigitB
  let rest := cs.dropWhile isDigitB
  match rest with
  | [] => if intPart.isEmpty then none else some ⟨(digitsToNat intPart : Int), 1⟩
  | '.' :: fracPart =>
      if fracPart.all isDigitB && !(intPart.isEmpty && fracPart.isEmpty) then
        some ⟨(digitsToNat intPart * 10 ^ fracPart.length + digitsToNat fracPart : Int),
              10 ^ fracPart.length⟩
      else none
  | _ => none

/-- Parse the unsigned part of a float literal: the infinity keywords
(case-insensitive) or a decimal literal, applying the sign `neg`. -/
def pyFloatOfUnsigned (cs : List Char) (neg : Bool) : Option PyFloat :=
  let low := cs.map Char.toLower
  if low = "inf".data || low = "infinity".data then
    some (if neg then .ninf else .pinf)
  else
    match parseUnsignedDec cs with
    | some f => some (.finite (if neg then ⟨-f.num, f.den⟩ else f))
    | none => none

/-- Model of Python `float(string)`: strip whitespace, take an optional
sign, then an infinity keyword or a decimal literal.  `none` models the
`ValueError` raised on text that does not parse as a real number. -/
def pyFloatOfChars (cs0 : List Char) : Option PyFloat :=
  match stripChars cs0 with
  | '+' :: rest => pyFloatOfUnsigned rest false
  | '-' :: rest => pyFloatOfUnsigned rest true
  | cs => pyFloatOfUnsigned cs false

/-- `Duration.parse_string` (video_dl.py:47-54): `dur = float(seconds)`,
then `if not 0.0 <= dur <= threading.TIMEOUT_MAX: raise ValueError`.
`tmax` is the platform's `threading.TIMEOUT_MAX` as an exact value.
`none` models the raised `ValueError`; `some q` models the returned
`Duration`.  An infinite parse result always fails the bound check
(`+inf` exceeds the finite `tmax`, `-inf` is below `0.0`), which the
last two branches spell out. -/
def parse_string (tmax : Frac) (seconds : String) : Option Frac :=
  match pyFloatOfChars seconds.data with
  | none => none
  | some (.finite q) => if Frac.le fracZero q && Frac.le q tmax then some q else none
  | some .pinf => none
  | some .ninf => none

/-- `threading.TIMEOUT_MAX` on CPython / 64-bit Linux:
`(2^63 - 1) / 10^9` seconds. -/
def TIMEOUT_MAX_LINUX : Frac := ⟨9223372036854775807, 1000000000⟩

/-- The `TimeInterval` dataclass (video_dl.py:71-77), both fields
defaulting to `Duration(0.0)`. -/
structure TimeInterval where
  lower : Frac := fracZero
  upper : Frac := fracZero
  deriving DecidableEq, Repr

/-- Model of Python `value.split(",")`: split at every comma, keeping
empty fields; the result is never empty. -/
def splitFields : List Char → List (List Char)
  | [] => [[]]
  | c :: rest =>
    match splitFields rest with
    | [] => [[]]
    | f :: fs => if c = ',' then [] :: f :: fs else (c :: f) :: fs

/-- Parse every field with `Duration.parse_string`; `none` models the
`ValueError` escaping the list comprehension in `parse_interval`. -/
def parseDurList (tmax : Frac) : List String → Option (List Frac)
  | [] => some []
  | s :: rest =>
    match parse_string tmax s, parseDurList tmax rest with
    | some d, some ds => some (d :: ds)
    | _, _ => none

/-- `Program.parse_interval` (video_dl.py:316-327).  The input is the
raw config value (`None` when the key is absent); the `Bool` component
records whether the "invalid argument" warning was emitted.  A falsy
value (absent key or empty string) returns the default interval; a
`ValueError` from any field returns the default interval with a
warning; otherwise `lower` is the first parsed field (or 0) and
`upper` the second (or 0). -/
def parse_interval (tmax : Frac) (value : Option String) : TimeInterval × Bool :=
  match value with
  | none => ({}, false)
  | some v =>
    if v = "" then ({}, false)
    else
      match parseDurList tmax ((splitFields v.data).map String.mk) with
      | none => ({}, true)
      | some ds => ({ lower := ds.getD 0 fracZero, upper := ds.getD 1 fracZero }, false)

/-- Atomic Python values appearing in the options mappings of this
program: strings, numbers, booleans, `None`, the job's bound
progress-hook method, and a postprocessor entry (identified by its
name; its inner structure is never inspected by this program). -/
inductive Atom where
  | str (s : String)
  | num (q : Frac)
  | abool (b : Bool)
  | pynone
  | hook
  | pp (s : String)
  deriving DecidableEq, Repr

/-- A Python value stored in an options mapping: an atom or a list of
atoms (lists of strings for the sentinel token array, lists of
postprocessor entries, the progress-hook list). -/
inductive Val where
  | atom (a : Atom)
  | vlist (l : List Atom)
  deriving DecidableEq, Repr

/-- Python truthiness of a modelled value, as tested by
`if array := options.get(opt_key):`. -/
def Val.truthy : Val → Bool
  | .atom (.str s) => s != ""
  | .atom (.num q) => q.num != 0
  | .atom (.abool b) => b
  | .atom .pynone => false
  | .atom .hook => true
  | .atom (.pp _) => true
  | .vlist l => !l.isEmpty

/-- A Python dict as an insertion-ordered association list with unique
keys (every operation below preserves key uniqueness). -/
abbrev Dict := List (String × Val)

/-- `d.get(k)` / `d[k]` lookup. -/
def dictLookup (d : Dict) (k : String) : Option Val :=
  match d with
  | [] => none
  | (k', v) :: rest => if k' = k then some v else dictLookup rest k

/-- `k in d`. -/
def dictContains (d : Dict) (k : String) : Bool := (dictLookup d k).isSome

/-- `d[k] = v` assignment: overwrite in place, else append (Python
dicts keep insertion order). -/
def dictSet (d : Dict) (k : String) (v : Val) : Dict :=
  match d with
  | [] => [(k, v)]
  | (k', v') :: rest => if k' = k then (k', v) :: rest else (k', v') :: dictSet rest k v

/-- `d.setdefault(k, v)`: insert `v` at the end only when `k` is
absent. -/
def dictSetdefault (d : Dict) (k : String) (v : Val) : Dict :=
  if dictContains d k then d else d ++ [(k, v)]

/-- `base_list.extend(parsed_list)` on the two postprocessor values.
On a pair of lists this appends; on any other shape Python would raise
(`.extend` on a non-list), a case no claim exercises, and the value is
left unchanged. -/
def extendPPVal (baseVal parsedVal : Val) : Val :=
  match baseVal, parsedVal with
  | .vlist a, .vlist b => .vlist (a ++ b)
  | v, _ => v

/-- `options["postprocessors"].extend(...)` as a dict-level operation:
replace the value at `k` (in place) by its extension. -/
def dictExtendKey (d : Dict) (k : String) (parsedVal : Val) : Dict :=
  match d with
  | [] => []
  | (k', v) :: rest =>
    if k' = k then (k', extendPPVal v parsedVal) :: rest
    else (k', v) :: dictExtendKey rest k parsedVal

/-- The sentinel key recognized by `interpret_options`. -/
def OPT_KEY : String := "VideoDL://options"

/-- Result of `Program.interpret_options`: `base` is the final state of
the caller's options object (the source mutates it in place on the
postprocessors path), `overlay` is `some parsed` exactly when a
`ChainMap(options, parsed)` was returned, and `warned` records the
"value is not an array" warning. -/
structure InterpretResult where
  base : Dict
  overlay : Option Dict
  warned : Bool
  deriving DecidableEq, Repr

/-- `Program.interpret_options` (video_dl.py:225-243).  `cliToApi`
abstracts the external `cli_to_api` / yt-dlp engine grammar
(video_dl.py:445-468): it maps the sentinel's token array to the dict
of non-default parsed options.  Walrus plus truthiness: an absent
sentinel, or a present falsy one, returns the input unchanged; a
truthy non-list warns and returns the input; a truthy list is parsed,
postprocessors (when present in the parse) are appended in place to
the base's list (created by `setdefault` when absent), and a
`ChainMap(options, parsed)` is returned. -/
def interpret_options (cliToApi : List Atom → Dict) (options : Dict) : InterpretResult :=
  match dictLookup options OPT_KEY with
  | none => ⟨options, none, false⟩
  | some v =>
    if Val.truthy v then
      match v with
      | .vlist arr =>
        let parsed := cliToApi arr
        let base1 :=
          match dictLookup parsed "postprocessors" with
          | some ppv =>
              dictExtendKey (dictSetdefault options "postprocessors" (.vlist []))
                "postprocessors" ppv
          | none => options
        ⟨base1, some parsed, false⟩
      | _ => ⟨options, none, true⟩
    else ⟨options, none, false⟩

/-- Key lookup in the value `interpret_options` returns.  When a
`ChainMap(options, parsed)` was returned this is ChainMap lookup:
search the (possibly mutated) base first, fall back to the parsed
overlay; otherwise it is plain lookup in the returned mapping. -/
def InterpretResult.lookup (r : InterpretResult) (k : String) : Option Val :=
  match r.overlay with
  | some parsed =>
    match dictLookup r.base k with
    | some v => some v
    | none => dictLookup parsed k
  | none => dictLookup r.base k

/-- `Job.__init__` (video_dl.py:81-97), restricted to its effect on the
options mapping: `self.options = options if options is not None else {}`
followed by `self.options["progress_hooks"] = [self.progress_hook]`.
The returned dict is the state of the caller's mapping afterwards. -/
def jobInitOptions (options : Option Dict) : Dict :=
  dictSet (options.getD []) "progress_hooks" (.vlist [.hook])

/-- Outcome of opening and deserializing one options file, abstracting
the file system and the JSON/YAML loaders (`_load_json`/`_load_yaml`
both return `None` on a parse failure, so the loader choice is
irrelevant to the outcomes modelled here). -/
inductive FileOutcome where
  | unreadable
  | malformed
  | content (options : Dict)
  deriving DecidableEq, Repr

/-- The log calls `read_options` makes on its two failure paths. -/
inductive LogEvent where
  | cantReadOptionsFile
  | unableToParseOptionsFile
  deriving DecidableEq, Repr

/-- `Program.read_options` (video_dl.py:174-208) with
`interpret=False`: `o_path` is the raw config value of `OptionsFile`
(`None` when absent); a falsy path returns `{}`; an `OSError` from
`open` logs "can't read options file" and returns `None`; a loader
returning `None` logs "unable to parse options file" and returns
`None`.  The first component is the Python return value, the second
the log event emitted. -/
def read_options (fs : String → FileOutcome) (o_path : Option String) :
    Option Dict × Option LogEvent :=
  match o_path with
  | none => (some [], none)
  | some p =>
    if p = "" then (some [], none)
    else
      match fs p with
      | .unreadable => (none, some .cantReadOptionsFile)
      | .malformed => (none, some .unableToParseOptionsFile)
      | .content options => (some options, none)

/-- `configparser.ConfigParser.BOOLEAN_STATES`, the token table used by
`SectionProxy.getboolean`. -/
def BOOLEAN_STATES : List (String × Bool) :=
  [("1", true), ("yes", true), ("true", true), ("on", true),
   ("0", false), ("no", false), ("false", false), ("off", false)]

/-- ASCII lower-casing, modelling `str.lower()` on the config tokens. -/
def strLower (s : String) : String := String.mk (s.data.map Char.toLower)

/-- `configparser.RawConfigParser._convert_to_boolean`: look the
lower-cased value up in `BOOLEAN_STATES`; `none` models the
`ValueError` raised on an unrecognized value. -/
def convertToBoolean (value : String) : Option Bool :=
  List.lookup (strLower value) BOOLEAN_STATES

/-- The warning `Program.get_boolean` emits, carrying the key name, the
offending raw value and the default being substituted. -/
structure BoolWarning where
  key : String
  rawValue : String
  defaultUsed : Bool
  deriving DecidableEq, Repr

/-- `Program.get_boolean` (video_dl.py:304-314) over
`SectionProxy.getboolean(key, default)`: a missing key returns the
default without invoking the converter (no warning); a recognized token
converts; an unrecognized value raises `ValueError`, which is caught,
a warning carrying key/value/default is logged, and the default is
returned.  `m` is the section's raw key-value lookup. -/
def get_boolean (m : String → Option String) (key : String) (dflt : Bool) :
    Bool × Option BoolWarning :=
  match m key with
  | none => (dflt, none)
  | some raw =>
    match convertToBoolean raw with
    | some b => (b, none)
    | none => (dflt, some ⟨key, raw, dflt⟩)

/-! Concrete instances of the abstracted engine grammar used by the
theorems below.  Each function records what yt-dlp's `parse_options`
diff (`cli_to_api`, video_dl.py:445-468) produces for one concrete
token array. -/

/-- The engine grammar on the token array `["-f", "mp4"]`: `-f` sets
the key `"format"`, whose zero-argument default differs, so the
non-default diff is `{"format": "mp4"}`. -/
def cliFormatMp4 : List Atom → Dict := fun _ => [("format", .atom (.str "mp4"))]

/-- An options-file mapping carrying an explicit `format` value and a
sentinel token array that selects a different format. -/
def baseWithFormat : Dict :=
  [("format", .atom (.str "best")), (OPT_KEY, .vlist [.str "-f", .str "mp4"])]

/-- The engine grammar on the token array `["--embed-thumbnail"]`: the
flag adds one non-default postprocessor entry. -/
def cliEmbedThumbnail : List Atom → Dict :=
  fun _ => [("postprocessors", .vlist [.pp "EmbedThumbnail"])]

/-- An options-file mapping holding only the sentinel token array (no
`postprocessors` key of its own). -/
def baseSentinelOnly : Dict := [(OPT_KEY, .vlist [.str "--embed-thumbnail"])]

/-- A trivial engine grammar (empty diff), used to show the grammar is
not consulted on a falsy sentinel. -/
def cliNoDiff : List Atom → Dict := fun _ => []

/-- A second, different engine grammar, used to show the result on a
falsy sentinel does not depend on the grammar at all. -/
def cliQuietDiff : List Atom → Dict := fun _ => [("quiet", .atom (.abool true))]

/-- An options mapping whose sentinel key holds an empty array. -/
def baseEmptySentinel : Dict := [("k", .atom (.str "v")), (OPT_KEY, .vlist [])]

/-! Helper lemmas about the field splitter and the duration parsers. -/

theorem splitFields_ne_nil (cs : List Char) : splitFields cs ≠ [] := by
  induction cs with
  | nil => simp [splitFields]
  | cons c rest ih =>
    simp only [splitFields]
    cases h : splitFields rest with
    | nil => simp
    | cons f fs =>
      by_cases hc : c = ','
      · simp [hc]
      · simp [hc]

theorem splitFields_append_comma (cs : List Char) :
    splitFields (cs ++ [',']) = splitFields cs ++ [[]] := by
  induction cs with
  | nil => rfl
  | cons c rest ih =>
    cases h : splitFields rest with
    | nil => exact absurd h (splitFields_ne_nil rest)
    | cons f fs =>
      simp only [List.cons_append, splitFields, List.append_eq]
      rw [ih, h, List.cons_append]
      by_cases hc : c = ','
      · simp [hc]
      · simp [hc]

theorem splitFields_no_comma (cs : List Char) (h : ¬ ',' ∈ cs) :
    splitFields cs = [cs] := by
  induction cs with
  | nil => rfl
  | cons c rest ih =>
    have hc : c ≠ ',' := fun e => h (e ▸ List.mem_cons_self c rest)
    have hrest : ¬ ',' ∈ rest := fun m => h (List.mem_cons_of_mem c m)
    simp only [splitFields, ih hrest]
    simp [fun e => hc (e : c = ',')]

theorem parse_string_empty (tmax : Frac) : parse_string tmax "" = none := rfl

theorem parseDurList_append_none (tmax : Frac) (l : List String) (s : String)
    (h : parse_string tmax s = none) :
    parseDurList tmax (l ++ [s]) = none := by
  induction l with
  | nil => simp [parseDurList, h]
  | cons x xs ih =>
    simp only [List.cons_append, parseDurList, List.append_eq, ih]
    cases parse_string tmax x <;> rfl

theorem parseDurList_none_of_mem (tmax : Frac) (l : List String) (s : String)
    (hmem : s ∈ l) (h : parse_string tmax s = none) :
    parseDurList tmax l = none := by
  induction l with
  | nil => cases hmem
  | cons x xs ih =>
    rcases List.mem_cons.mp hmem with he | ht
    · subst he
      simp [parseDurList, h]
    · simp only [parseDurList, ih ht]
      cases parse_string tmax x <;> rfl

theorem string_ne_empty_of_data (v : String) (cs : List Char) (c : Char)
    (h : v.data = cs ++ [c]) : v ≠ "" := by
  intro e
  subst e
  simp at h

/-! Claim theorems for the duration / interval parsing layer. -/

/-- C3 counterexample: the configuration value `"2"` is a single
comma-free field parsing as the duration 2, yet `parse_interval`
returns `TimeInterval(lower=2, upper=0)`, not the claimed `(0, 2)`
(this matches the repository's own test, which expects
`TimeInterval(lower=2.0)`). -/
theorem parse_interval_single_field_counterexample :
    parse_interval TIMEOUT_MAX_LINUX (some "2")
      = ({ lower := ⟨2, 1⟩, upper := ⟨0, 1⟩ }, false) ∧
    ({ lower := ⟨2, 1⟩, upper := ⟨0, 1⟩ } : TimeInterval)
      ≠ { lower := ⟨0, 1⟩, upper := ⟨2, 1⟩ } := by
  decide

/-- C3 (amended): for every configuration value consisting of exactly
one comma-free field that parses as a valid duration `d`,
`parse_interval` returns the interval `(d, 0)`: the single field
becomes the lower bound and the upper bound is 0. -/
theorem parse_interval_single_field (tmax : Frac) (v : String) (d : Frac)
    (hnc : ¬ ',' ∈ v.data) (hparse : parse_string tmax v = some d) :
    parse_interval tmax (some v) = ({ lower := d, upper := fracZero }, false) := by
  have hv : v ≠ "" := by
    intro e
    rw [e, parse_string_empty] at hparse
    cases hparse
  simp only [parse_interval, if_neg hv, splitFields_no_comma v.data hnc, List.map_cons,
    List.map_nil]
  have hmk : String.mk v.data = v := rfl
  rw [hmk]
  simp [parseDurList, hparse]

/-- C3 witness: the amended theorem applied to the value `"2"`. -/
theorem parse_interval_single_field_witness :
    ¬ ',' ∈ "2".data ∧
    parse_interval TIMEOUT_MAX_LINUX (some "2")
      = ({ lower := ⟨2, 1⟩, upper := fracZero }, false) :=
  ⟨by decide,
   parse_interval_single_field TIMEOUT_MAX_LINUX "2" ⟨2, 1⟩ (by decide) (by decide)⟩

/-- C4 counterexample: in `"1,2,x"` the first two fields parse as the
durations 1 and 2, yet `parse_interval` does not return
`TimeInterval(1, 2)`: the third field `"x"` fails to parse, which
triggers the fallback to `(0, 0)` with a warning — so later fields are
not ignored by the failure check, contradicting the claim that only a
parse failure in one of the first two fields triggers the fallback. -/
theorem parse_interval_trailing_counterexample :
    parse_interval TIMEOUT_MAX_LINUX (some "1,2,x") = ({}, true) ∧
    parse_interval TIMEOUT_MAX_LINUX (some "1,2,x")
      ≠ ({ lower := ⟨1, 1⟩, upper := ⟨2, 1⟩ }, false) := by
  decide

/-- C4 (amended): `parse_interval` parses every comma-separated field
as a duration.  When all of them parse, the interval is built from the
first two fields only (the values of later fields are ignored, so
`"6,7,15,0"` yields `TimeInterval(6, 7)`); but a parse failure in any
field — not just the first two — triggers the fallback to `(0, 0)`
with a warning. -/
theorem parse_interval_field_policy (tmax : Frac) (v : String) :
    (∀ (f1 f2 : List Char) (rest : List (List Char)) (d1 d2 : Frac) (ds : List Frac),
      splitFields v.data = f1 :: f2 :: rest →
      parse_string tmax (String.mk f1) = some d1 →
      parse_string tmax (String.mk f2) = some d2 →
      parseDurList tmax (rest.map String.mk) = some ds →
      parse_interval tmax (some v) = ({ lower := d1, upper := d2 }, false)) ∧
    (∀ (f : List Char), v ≠ "" → f ∈ splitFields v.data →
      parse_string tmax (String.mk f) = none →
      parse_interval tmax (some v) = ({}, true)) := by
  constructor
  · intro f1 f2 rest d1 d2 ds hsplit h1 h2 hrest
    have hv : v ≠ "" := by
      intro e
      subst e
      simp [splitFields] at hsplit
    simp [parse_interval, if_neg hv, hsplit, parseDurList, h1, h2, hrest]
  · intro f hv hmem hfail
    have hnone : parseDurList tmax ((splitFields v.data).map String.mk) = none :=
      parseDurList_none_of_mem tmax _ (String.mk f) (List.mem_map_of_mem String.mk hmem)
        hfail
    simp [parse_interval, if_neg hv, hnone]

/-- C4 witness: the amended theorem applied to the value `"6,7,15,0"`,
whose trailing fields parse and are ignored. -/
theorem parse_interval_field_policy_witness :
    splitFields "6,7,15,0".data = [['6'], ['7'], ['1', '5'], ['0']] ∧
    parse_interval TIMEOUT_MAX_LINUX (some "6,7,15,0")
      = ({ lower := ⟨6, 1⟩, upper := ⟨7, 1⟩ }, false) :=
  ⟨by decide,
   (parse_interval_field_policy TIMEOUT_MAX_LINUX "6,7,15,0").1 ['6'] ['7']
     [['1', '5'], ['0']] ⟨6, 1⟩ ⟨7, 1⟩ [⟨15, 1⟩, ⟨0, 1⟩] (by decide) (by decide)
     (by decide) (by decide)⟩

/-- C5: every configuration value ending in a comma with nothing after
it makes the final (empty) field fail to parse, so `parse_interval`
falls back to `TimeInterval(0, 0)` and emits the warning, rather than
treating the value as a single-field interval. -/
theorem parse_interval_trailing_comma (tmax : Frac) (v : String) (cs : List Char)
    (h : v.data = cs ++ [',']) :
    parse_interval tmax (some v) = ({}, true) := by
  have hv : v ≠ "" := string_ne_empty_of_data v cs ',' h
  have hnone : parseDurList tmax ((splitFields v.data).map String.mk) = none := by
    rw [h, splitFields_append_comma, List.map_append]
    exact parseDurList_append_none tmax _ _ (parse_string_empty tmax)
  simp [parse_interval, if_neg hv, hnone]

/-- C5 witness: the theorem applied to the spec's example `" 3,"`. -/
theorem parse_interval_trailing_comma_witness :
    " 3,".data = [' ', '3'] ++ [','] ∧
    parse_interval TIMEOUT_MAX_LINUX (some " 3,") = ({}, true) :=
  ⟨by decide, parse_interval_trailing_comma TIMEOUT_MAX_LINUX " 3," [' ', '3'] (by decide)⟩

/-- C7: `Duration.parse_string` fails exactly when the text does not
parse as a real number, is below `0.0` (negative), or is above the
platform's `threading.TIMEOUT_MAX` (`tmax`, any finite bound of at
least 4 so that the example `3.14` is in range); `"3.14"` parses to
exactly 314/100, `"-1"` and `"inf"` both fail, and every successfully
constructed duration lies in `[0, tmax]`. -/
theorem duration_parse_contract (tmax : Frac) (htm : Frac.le ⟨4, 1⟩ tmax = true) :
    (∀ s : String, parse_string tmax s = none ↔
        (pyFloatOfChars s.data = none ∨
         ∃ v, pyFloatOfChars s.data = some v ∧
           (PyFloat.le (.finite fracZero) v = false ∨
            PyFloat.le v (.finite tmax) = false))) ∧
    parse_string tmax "3.14" = some ⟨314, 100⟩ ∧
    parse_string tmax "-1" = none ∧
    parse_string tmax "inf" = none ∧
    (∀ s q, parse_string tmax s = some q →
        Frac.le fracZero q = true ∧ Frac.le q tmax = true) := by
  have h4 : (4 : Int) * (tmax.den : Int) ≤ tmax.num * 1 := by
    simpa [Frac.le] using htm
  refine ⟨?_, ?_, ?_, ?_, ?_⟩
  · intro s
    unfold parse_string
    cases hp : pyFloatOfChars s.data with
    | none => simp
    | some v =>
      cases v with
      | finite q =>
        by_cases h0 : Frac.le fracZero q = true
        · by_cases h1 : Frac.le q tmax = true
          · simp [h0, h1, PyFloat.le]
          · simp [h0, h1, PyFloat.le, Bool.not_eq_true]
        · simp [h0, PyFloat.le, Bool.not_eq_true]
      | pinf => simp [PyFloat.le]
      | ninf => simp [PyFloat.le]
  · have hp : pyFloatOfChars "3.14".data = some (.finite ⟨314, 100⟩) := by decide
    have h0 : Frac.le fracZero ⟨314, 100⟩ = true := by decide
    have h1 : Frac.le ⟨314, 100⟩ tmax = true := by
      simp only [Frac.le, decide_eq_true_eq]
      omega
    simp [parse_string, hp, h0, h1]
  · have hp : pyFloatOfChars "-1".data = some (.finite ⟨-1, 1⟩) := by decide
    have h0 : Frac.le fracZero ⟨-1, 1⟩ = false := by decide
    simp [parse_string, hp, h0]
  · have hp : pyFloatOfChars "inf".data = some .pinf := by decide
    simp [parse_string, hp]
  · intro s q hq
    unfold parse_string at hq
    cases hp : pyFloatOfChars s.data with
    | none => rw [hp] at hq; cases hq
    | some v =>
      rw [hp] at hq
      cases v with
      | finite r =>
        dsimp only at hq
        by_cases hc : (Frac.le fracZero r && Frac.le r tmax) = true
        · rw [if_pos hc] at hq
          cases hq
          exact ⟨(Bool.and_eq_true _ _).mp hc |>.1, (Bool.and_eq_true _ _).mp hc |>.2⟩
        · rw [if_neg hc] at hq; cases hq
      | pinf => cases hq
      | ninf => cases hq

/-- C7 witness: the contract applied at the 64-bit Linux value of
`threading.TIMEOUT_MAX`, extracting the `"3.14"` example. -/
theorem duration_parse_contract_witness :
    Frac.le ⟨4, 1⟩ TIMEOUT_MAX_LINUX = true ∧
    parse_string TIMEOUT_MAX_LINUX "3.14" = some ⟨314, 100⟩ :=
  ⟨by decide, (duration_parse_contract TIMEOUT_MAX_LINUX (by decide)).2.1⟩

/-! Helper lemmas about the dict operations. -/

theorem dictLookup_append (d1 d2 : Dict) (k : String) :
    dictLookup (d1 ++ d2) k =
      match dictLookup d1 k with
      | some v => some v
      | none => dictLookup d2 k := by
  induction d1 with
  | nil => simp [dictLookup]
  | cons hd tl ih =>
    obtain ⟨k', v'⟩ := hd
    by_cases h : k' = k
    · simp [dictLookup, h]
    · simp [dictLookup, h, ih]

theorem dictLookup_dictSet_self (d : Dict) (k : String) (v : Val) :
    dictLookup (dictSet d k v) k = some v := by
  induction d with
  | nil => simp [dictSet, dictLookup]
  | cons hd tl ih =>
    obtain ⟨k', v'⟩ := hd
    by_cases h : k' = k
    · simp [dictSet, dictLookup, h]
    · simp [dictSet, dictLookup, h, ih]

theorem dictLookup_dictSetdefault_other (d : Dict) (k j : String) (v : Val)
    (h : j ≠ k) :
    dictLookup (dictSetdefault d k v) j = dictLookup d j := by
  unfold dictSetdefault
  by_cases hc : dictContains d k
  · simp [hc]
  · simp only [hc, if_false, Bool.false_eq_true, dictLookup_append]
    cases hd : dictLookup d j with
    | some w => simp
    | none => simp [dictLookup, Ne.symm h]

theorem dictLookup_dictSetdefault_absent (d : Dict) (k : String) (v : Val)
    (h : dictLookup d k = none) :
    dictLookup (dictSetdefault d k v) k = some v := by
  unfold dictSetdefault
  have hc : dictContains d k = false := by simp [dictContains, h]
  simp only [hc, Bool.false_eq_true, if_false, dictLookup_append, h]
  simp [dictLookup]

theorem dictSetdefault_present (d : Dict) (k : String) (v w : Val)
    (h : dictLookup d k = some w) :
    dictSetdefault d k v = d := by
  unfold dictSetdefault
  have hc : dictContains d k = true := by simp [dictContains, h]
  simp [hc]

theorem dictLookup_dictExtendKey_other (d : Dict) (k j : String) (pv : Val)
    (h : j ≠ k) :
    dictLookup (dictExtendKey d k pv) j = dictLookup d j := by
  induction d with
  | nil => simp [dictExtendKey]
  | cons hd tl ih =>
    obtain ⟨k', v'⟩ := hd
    by_cases hk : k' = k
    · simp [dictExtendKey, dictLookup, hk, Ne.symm h]
    · simp [dictExtendKey, dictLookup, hk, ih]

theorem dictLookup_dictExtendKey_self (d : Dict) (k : String) (pv w : Val)
    (h : dictLookup d k = some w) :
    dictLookup (dictExtendKey d k pv) k = some (extendPPVal w pv) := by
  induction d with
  | nil => simp [dictLookup] at h
  | cons hd tl ih =>
    obtain ⟨k', v'⟩ := hd
    by_cases hk : k' = k
    · subst hk
      simp [dictLookup] at h
      subst h
      simp [dictExtendKey, dictLookup]
    · simp only [dictLookup, hk, if_false] at h
      simp [dictExtendKey, dictLookup, hk, ih h]

/-- Shared shape lemma: on a mapping whose sentinel key holds a
non-empty array, `interpret_options` returns the `ChainMap`: the
parsed overlay, no warning, and the base updated only on the
postprocessors path. -/
theorem interpret_options_truthy_list (cliToApi : List Atom → Dict) (options : Dict)
    (arr : List Atom) (hget : dictLookup options OPT_KEY = some (.vlist arr))
    (hne : arr ≠ []) :
    interpret_options cliToApi options =
      ⟨(match dictLookup (cliToApi arr) "postprocessors" with
        | some ppv =>
            dictExtendKey (dictSetdefault options "postprocessors" (.vlist []))
              "postprocessors" ppv
        | none => options),
       some (cliToApi arr), false⟩ := by
  have htr : Val.truthy (Val.vlist arr) = true := by
    simp [Val.truthy, hne]
  unfold interpret_options
  rw [hget]
  dsimp only
  rw [htr]
  simp

/-- C1 counterexample: with the base mapping
`{"format": "best", "VideoDL://options": ["-f", "mp4"]}` and the engine
grammar parsing those tokens to the overlay delta `{"format": "mp4"}`,
looking up `"format"` in the returned `ChainMap(options, parsed)`
yields the BASE mapping's `"best"`, not the overlay's `"mp4"`: the
overlay does not supersede the base for overlapping keys. -/
theorem interpret_options_precedence_counterexample :
    dictLookup (cliFormatMp4 [.str "-f", .str "mp4"]) "format"
      = some (.atom (.str "mp4")) ∧
    dictLookup baseWithFormat "format" = some (.atom (.str "best")) ∧
    (interpret_options cliFormatMp4 baseWithFormat).lookup "format"
      = some (.atom (.str "best")) ∧
    (interpret_options cliFormatMp4 baseWithFormat).lookup "format"
      ≠ some (.atom (.str "mp4")) := by
  decide

/-- C1 (amended): for every options mapping whose sentinel key holds a
non-empty token array, `interpret_options` returns a read-through
layered view in which looking up a key first checks the BASE mapping
and only falls back to the overlay delta (the parsed non-default
options) when the base lacks that key; in particular, for every key
other than `"postprocessors"` present in both, lookup yields the base
mapping's original value, superseding the overlay's. -/
theorem interpret_options_layering (cliToApi : List Atom → Dict) (options : Dict)
    (arr : List Atom) (hget : dictLookup options OPT_KEY = some (.vlist arr))
    (hne : arr ≠ []) :
    (interpret_options cliToApi options).overlay = some (cliToApi arr) ∧
    (∀ k v, dictLookup (interpret_options cliToApi options).base k = some v →
      (interpret_options cliToApi options).lookup k = some v) ∧
    (∀ k, dictLookup (interpret_options cliToApi options).base k = none →
      (interpret_options cliToApi options).lookup k = dictLookup (cliToApi arr) k) ∧
    (∀ k, k ≠ "postprocessors" →
      dictLookup (interpret_options cliToApi options).base k = dictLookup options k) := by
  rw [interpret_options_truthy_list cliToApi options arr hget hne]
  refine ⟨rfl, ?_, ?_, ?_⟩
  · intro k v h
    simp only [InterpretResult.lookup]
    rw [h]
  · intro k h
    simp only [InterpretResult.lookup]
    rw [h]
  · intro k hk
    cases hpp : dictLookup (cliToApi arr) "postprocessors" with
    | none => simp [hpp]
    | some ppv =>
      simp only [hpp]
      rw [dictLookup_dictExtendKey_other _ _ _ _ hk,
        dictLookup_dictSetdefault_other _ _ _ _ hk]

/-- C1 witness: the amended layering applied to the concrete
base/grammar pair of the counterexample. -/
theorem interpret_options_layering_witness :
    dictLookup baseWithFormat OPT_KEY = some (.vlist [.str "-f", .str "mp4"]) ∧
    (∀ k, k ≠ "postprocessors" →
      dictLookup (interpret_options cliFormatMp4 baseWithFormat).base k
        = dictLookup baseWithFormat k) :=
  ⟨by decide,
   (interpret_options_layering cliFormatMp4 baseWithFormat [.str "-f", .str "mp4"]
     (by decide) (by decide)).2.2.2⟩

/-- C2 counterexample: with the base mapping
`{"VideoDL://options": ["--embed-thumbnail"]}` and the engine grammar
producing the overlay delta
`{"postprocessors": [EmbedThumbnail]}`, the call WRITES the key
`"postprocessors"` into the base mapping object (the source's
`options.setdefault(...)` / `options["postprocessors"].extend(...)`),
so not every key of the base still maps to its original value. -/
theorem interpret_options_mutation_counterexample :
    dictLookup baseSentinelOnly "postprocessors" = none ∧
    dictLookup (interpret_options cliEmbedThumbnail baseSentinelOnly).base
        "postprocessors" = some (.vlist [.pp "EmbedThumbnail"]) ∧
    dictLookup (interpret_options cliEmbedThumbnail baseSentinelOnly).base
        "postprocessors" ≠ dictLookup baseSentinelOnly "postprocessors" := by
  decide

/-- C2 (amended): after `interpret_options` on a well-formed sentinel
array, every key of the base mapping OTHER than `"postprocessors"` —
in particular the sentinel key itself — still maps to its original
value; the base is unchanged whenever the parsed overlay carries no
postprocessors, but when it does, the base's `"postprocessors"` list
is mutated: the overlay's entries are appended to the base's existing
list, or the key is created holding exactly the overlay's entries. -/
theorem interpret_options_frame (cliToApi : List Atom → Dict) (options : Dict)
    (arr : List Atom) (hget : dictLookup options OPT_KEY = some (.vlist arr))
    (hne : arr ≠ []) :
    (∀ k, k ≠ "postprocessors" →
      dictLookup (interpret_options cliToApi options).base k = dictLookup options k) ∧
    dictLookup (interpret_options cliToApi options).base OPT_KEY
      = some (.vlist arr) ∧
    (dictLookup (cliToApi arr) "postprocessors" = none →
      (interpret_options cliToApi options).base = options) ∧
    (∀ ps l, dictLookup (cliToApi arr) "postprocessors" = some (.vlist ps) →
      dictLookup options "postprocessors" = some (.vlist l) →
      dictLookup (interpret_options cliToApi options).base "postprocessors"
        = some (.vlist (l ++ ps))) ∧
    (∀ ps, dictLookup (cliToApi arr) "postprocessors" = some (.vlist ps) →
      dictLookup options "postprocessors" = none →
      dictLookup (interpret_options cliToApi options).base "postprocessors"
        = some (.vlist ps)) := by
  rw [interpret_options_truthy_list cliToApi options arr hget hne]
  have hoptkey : OPT_KEY ≠ "postprocessors" := by decide
  refine ⟨?_, ?_, ?_, ?_, ?_⟩
  · intro k hk
    cases hpp : dictLookup (cliToApi arr) "postprocessors" with
    | none => simp [hpp]
    | some ppv =>
      simp only [hpp]
      rw [dictLookup_dictExtendKey_other _ _ _ _ hk,
        dictLookup_dictSetdefault_other _ _ _ _ hk]
  · cases hpp : dictLookup (cliToApi arr) "postprocessors" with
    | none => simpa [hpp] using hget
    | some ppv =>
      simp only [hpp]
      rw [dictLookup_dictExtendKey_other _ _ _ _ hoptkey,
        dictLookup_dictSetdefault_other _ _ _ _ hoptkey]
      exact hget
  · intro hpp
    simp [hpp]
  · intro ps l hpp hbase
    simp only [hpp]
    rw [dictSetdefault_present _ _ _ _ hbase,
      dictLookup_dictExtendKey_self _ _ _ _ hbase]
    rfl
  · intro ps hpp hbase
    simp only [hpp]
    have habs : dictLookup (dictSetdefault options "postprocessors" (.vlist []))
        "postprocessors" = some (.vlist []) :=
      dictLookup_dictSetdefault_absent _ _ _ hbase
    rw [dictLookup_dictExtendKey_self _ _ _ _ habs]
    rfl

/-- C2 witness: the frame theorem at the counterexample's concrete
input, extracting the created-key case. -/
theorem interpret_options_frame_witness :
    dictLookup baseSentinelOnly OPT_KEY = some (.vlist [.str "--embed-thumbnail"]) ∧
    dictLookup (interpret_options cliEmbedThumbnail baseSentinelOnly).base
      "postprocessors" = some (.vlist [.pp "EmbedThumbnail"]) :=
  ⟨by decide,
   (interpret_options_frame cliEmbedThumbnail baseSentinelOnly
     [.str "--embed-thumbnail"] (by decide) (by decide)).2.2.2.2
     [.pp "EmbedThumbnail"] (by decide) (by decide)⟩

/-- C9: constructing a `Job` rewrites `options["progress_hooks"]` to
the one-element list holding the job's own progress hook, whatever
value the caller had stored there (and an absent options argument
becomes a fresh mapping with only that key). -/
theorem job_init_overwrites_hooks (options : Dict) (v : Val)
    (_hv : dictLookup options "progress_hooks" = some v) :
    dictLookup (jobInitOptions (some options)) "progress_hooks"
      = some (.vlist [.hook]) ∧
    jobInitOptions none = [("progress_hooks", .vlist [.hook])] :=
  ⟨dictLookup_dictSet_self options "progress_hooks" (.vlist [.hook]), rfl⟩

/-- C9 witness: a caller-supplied `progress_hooks` list is silently
overwritten. -/
theorem job_init_overwrites_hooks_witness :
    dictLookup [("progress_hooks", Val.vlist [.str "user_hook"])] "progress_hooks"
      = some (.vlist [.str "user_hook"]) ∧
    dictLookup (jobInitOptions (some [("progress_hooks", Val.vlist [.str "user_hook"])]))
      "progress_hooks" = some (.vlist [.hook]) :=
  ⟨by decide,
   (job_init_overwrites_hooks [("progress_hooks", Val.vlist [.str "user_hook"])]
     (.vlist [.str "user_hook"]) (by decide)).1⟩

/-- C10: when the sentinel key is present but bound to a falsy value
(empty array, empty string, ...), `interpret_options` returns the
input mapping unchanged with no warning, and the result does not
depend on the engine grammar at all — the truthiness test short
circuits before the list-type check and before any parsing. -/
theorem interpret_options_falsy_sentinel (cliToApi cliToApi2 : List Atom → Dict)
    (options : Dict) (v : Val) (hget : dictLookup options OPT_KEY = some v)
    (hfalsy : Val.truthy v = false) :
    interpret_options cliToApi options = ⟨options, none, false⟩ ∧
    interpret_options cliToApi options = interpret_options cliToApi2 options := by
  have h1 : ∀ f : List Atom → Dict, interpret_options f options = ⟨options, none, false⟩ := by
    intro f
    unfold interpret_options
    rw [hget]
    dsimp only
    rw [hfalsy]
    simp
  exact ⟨h1 cliToApi, (h1 cliToApi).trans (h1 cliToApi2).symm⟩

/-- C10 witness: an empty sentinel array under two different grammars. -/
theorem interpret_options_falsy_sentinel_witness :
    dictLookup baseEmptySentinel OPT_KEY = some (.vlist []) ∧
    interpret_options cliNoDiff baseEmptySentinel
      = ⟨baseEmptySentinel, none, false⟩ ∧
    interpret_options cliNoDiff baseEmptySentinel
      = interpret_options cliQuietDiff baseEmptySentinel :=
  ⟨by decide,
   (interpret_options_falsy_sentinel cliNoDiff cliQuietDiff baseEmptySentinel
     (.vlist []) (by decide) (by decide)).1,
   (interpret_options_falsy_sentinel cliNoDiff cliQuietDiff baseEmptySentinel
     (.vlist []) (by decide) (by decide)).2⟩

/-- C6 counterexample: an unreadable options file and a readable but
malformed one produce the SAME return value (`None` in the source,
`none` here), so a caller cannot tell the I/O error apart from the
parse error from the result of the call — the two are distinguished
only by the emitted log message. -/
theorem read_options_result_counterexample :
    (read_options (fun _ => .unreadable) (some "opts.json")).1
      = (read_options (fun _ => .malformed) (some "opts.json")).1 ∧
    (read_options (fun _ => .unreadable) (some "opts.json")).1 = none ∧
    (read_options (fun _ => .unreadable) (some "opts.json")).2
      ≠ (read_options (fun _ => .malformed) (some "opts.json")).2 := by
  decide

/-- C6 (amended): the options loader returns an empty mapping (success,
not an error) for an absent or empty path configuration; for a missing
or unreadable file it returns `None` after logging the I/O error, and
for a readable but malformed file it returns the same `None` after
logging the parse error — so from the result a caller can tell "no
file configured" apart from the two error cases, while the I/O and
parse errors are distinguished only by their log messages, not by the
returned value. -/
theorem read_options_outcomes (fs : String → FileOutcome) (p : String)
    (hp : p ≠ "") :
    read_options fs none = (some [], none) ∧
    read_options fs (some "") = (some [], none) ∧
    (fs p = .unreadable →
      read_options fs (some p) = (none, some .cantReadOptionsFile)) ∧
    (fs p = .malformed →
      read_options fs (some p) = (none, some .unableToParseOptionsFile)) ∧
    (∀ o, fs p = .content o → read_options fs (some p) = (some o, none)) := by
  refine ⟨rfl, rfl, ?_, ?_, ?_⟩
  · intro h
    simp [read_options, hp, h]
  · intro h
    simp [read_options, hp, h]
  · intro o h
    simp [read_options, hp, h]

/-- C6 witness: the outcome split applied to a concrete path and an
unreadable file system. -/
theorem read_options_outcomes_witness :
    "opts.json" ≠ "" ∧
    read_options (fun _ => .unreadable) (some "opts.json")
      = (none, some .cantReadOptionsFile) :=
  ⟨by decide,
   (read_options_outcomes (fun _ => .unreadable) "opts.json" (by decide)).2.2.1 rfl⟩

/-- C8: `get_boolean` maps every raw value whose lower-casing is one of
`1/on/true/yes` to `True` and of `0/off/false/no` to `False`; any
other non-empty present value returns the supplied default after a
warning carrying the key name, the offending value and the substituted
default; a missing key returns the default silently. -/
theorem get_boolean_contract (m : String → Option String) (key : String)
    (dflt : Bool) :
    (m key = none → get_boolean m key dflt = (dflt, none)) ∧
    (∀ raw, m key = some raw → strLower raw ∈ ["1", "yes", "true", "on"] →
      get_boolean m key dflt = (true, none)) ∧
    (∀ raw, m key = some raw → strLower raw ∈ ["0", "no", "false", "off"] →
      get_boolean m key dflt = (false, none)) ∧
    (∀ raw, m key = some raw → raw ≠ "" →
      ¬ strLower raw ∈ ["1", "yes", "true", "on"] →
      ¬ strLower raw ∈ ["0", "no", "false", "off"] →
      get_boolean m key dflt = (dflt, some ⟨key, raw, dflt⟩)) := by
  refine ⟨?_, ?_, ?_, ?_⟩
  · intro h
    simp [get_boolean, h]
  · intro raw hm hmem
    simp only [List.mem_cons, List.not_mem_nil, or_false] at hmem
    rcases hmem with h | h | h | h <;>
      simp [get_boolean, hm, convertToBoolean, BOOLEAN_STATES, List.lookup, h]
  · intro raw hm hmem
    simp only [List.mem_cons, List.not_mem_nil, or_false] at hmem
    rcases hmem with h | h | h | h <;>
      simp [get_boolean, hm, convertToBoolean, BOOLEAN_STATES, List.lookup, h]
  · intro raw hm _ h1 h0
    simp only [List.mem_cons, List.not_mem_nil, or_false, not_or] at h1 h0
    obtain ⟨n1, n2, n3, n4⟩ := h1
    obtain ⟨n5, n6, n7, n8⟩ := h0
    have b1 := beq_eq_false_iff_ne.mpr n1
    have b2 := beq_eq_false_iff_ne.mpr n2
    have b3 := beq_eq_false_iff_ne.mpr n3
    have b4 := beq_eq_false_iff_ne.mpr n4
    have b5 := beq_eq_false_iff_ne.mpr n5
    have b6 := beq_eq_false_iff_ne.mpr n6
    have b7 := beq_eq_false_iff_ne.mpr n7
    have b8 := beq_eq_false_iff_ne.mpr n8
    simp [get_boolean, hm, convertToBoolean, BOOLEAN_STATES, List.lookup,
      b1, b2, b3, b4, b5, b6, b7, b8]

/-- C8 witness: the contract at a section holding `"TRUE"` (upper case,
recognized truthy) for the key being read. -/
theorem get_boolean_contract_witness :
    (fun k => if k = "ShuffleSource" then some "TRUE" else none) "ShuffleSource"
      = some "TRUE" ∧
    strLower "TRUE" ∈ ["1", "yes", "true", "on"] ∧
    get_boolean (fun k => if k = "ShuffleSource" then some "TRUE" else none)
      "ShuffleSource" false = (true, none) :=
  ⟨by decide, by decide,
   (get_boolean_contract (fun k => if k = "ShuffleSource" then some "TRUE" else none)
     "ShuffleSource" false).2.1 "TRUE" (by decide) (by decide)⟩

end VideoDL
